import Mathlib

/-!
Shallow embedding of the connection-handling core of the `udp` repository
(`src/server3.c` and `src/client.c`): the retry-on-EINTR syscall wrappers,
the framed I/O helpers `reads` and `writen`, the per-connection handler
`serve_client`, the accept/dispatch loop of `main`, and the client
multiplexing loop `do_work`.

Modelling conventions:
  - A raw syscall invocation is an entry of a finite schedule
    (`List SysRes`): either `ok n` (the call returned `n ≥ 0`) or
    `err e` (the call returned `-1` with `errno = e`).
  - The wrappers (`Read`, `Write`, `Close`, `Accept`, `Select`) loop over
    such a schedule.  `none` means the schedule was exhausted while the
    loop was still running (the real call would still be blocking or
    retrying); otherwise the wrapper either returns a byte count
    (`WRes.ok`) or calls `error(...)`, which is `perror` followed by
    `exit(-1)` — it terminates the whole process and never returns to the
    caller (`WRes.fatal`).
  - Higher-level loops (`writen`, `do_work`, `serve_client`) consume
    schedules of wrapper outcomes (`List WRes`), one entry per wrapper
    call they make.
  - Bytes are `Nat`, the newline byte is `10`, the terminating NUL is `0`.
  - `size_t` subtraction wraps modulo `2 ^ 64`; `sub64` makes the wrap
    explicit where it can occur.
-/

/-- The `errno` values the sources inspect, plus representatives for the
remaining (fatal) failures. -/
inductive Errno
  | eintr
  | econnaborted
  | efault
  | eio
deriving DecidableEq

/-- Result of one raw syscall invocation: a non-negative return value or
`-1` with an `errno`. -/
inductive SysRes
  | ok (n : Nat)
  | err (e : Errno)
deriving DecidableEq

/-- Outcome of one call to a retrying wrapper: the returned count, or a
call to `error(...)` (which exits the whole process with code `-1` and
never returns). -/
inductive WRes
  | ok (k : Nat)
  | fatal (e : Errno)
deriving DecidableEq

/-- Generic retry loop shared by the wrappers of both source files: retry
while the syscall fails with a transient `errno` (per the predicate `t`),
return the first success, and call `error(...)` on any other failure.
`none` means the schedule ended while the loop was still retrying. -/
def retryWrap (t : Errno → Bool) : List SysRes → Option (WRes × List SysRes)
  | [] => none
  | SysRes.ok n :: rest => some (WRes.ok n, rest)
  | SysRes.err e :: rest =>
      if t e then retryWrap t rest else some (WRes.fatal e, rest)

/-- Transient set of `Read`, `Write`, `Close` (server3.c) and `Select`
(client.c): only `EINTR`. -/
def eintrOnly : Errno → Bool
  | Errno.eintr => true
  | _ => false

/-- Transient set of `Accept` (server3.c lines 117-131): `EINTR` and
`ECONNABORTED`. -/
def acceptRetry : Errno → Bool
  | Errno.eintr => true
  | Errno.econnaborted => true
  | _ => false

/-- Unsigned 64-bit (`size_t`) subtraction: `a - b` modulo `2 ^ 64`. -/
def sub64 (a b : Nat) : Nat := (a + (2 ^ 64 - b % 2 ^ 64)) % 2 ^ 64

/-- A wrapper outcome that reports at least one byte transferred. -/
def okPos : WRes → Bool
  | WRes.ok (_ + 1) => true
  | _ => false

/-- Outcome of one `writen` call. -/
inductive WOut
  | ret (n : Nat)
  | exited (e : Errno)
  | stuck
deriving DecidableEq

namespace Server

/-- Wrapper `Read` of server3.c lines 147-160: retry `read` on `EINTR`,
`error("read()")` on any other failure. -/
def Read : List SysRes → Option (WRes × List SysRes) := retryWrap eintrOnly

/-- Wrapper `Write` of server3.c lines 163-177: retry `write` on `EINTR`,
`error("write()")` on any other failure. -/
def Write : List SysRes → Option (WRes × List SysRes) := retryWrap eintrOnly

/-- Wrapper `Close` of server3.c lines 134-144: retry `close` on `EINTR`,
`error("close()")` on any other failure. -/
def Close : List SysRes → Option (WRes × List SysRes) := retryWrap eintrOnly

/-- Wrapper `Accept` of server3.c lines 117-131: retry `accept` on `EINTR`
or `ECONNABORTED`, `error("accept()")` on any other failure. -/
def Accept : List SysRes → Option (WRes × List SysRes) := retryWrap acceptRetry

/-- Loop of `reads` (server3.c lines 239-251) with `lim = size - 1`: read
one byte at a time; stop on end of stream (`Read` returns 0, i.e. the
input list is exhausted), on a newline byte (which is kept), or after
`lim` bytes.  Returns the data bytes stored and the unread rest of the
input. -/
def readsLoop : Nat → List Nat → List Nat × List Nat
  | 0, input => ([], input)
  | _ + 1, [] => ([], [])
  | lim + 1, b :: rest =>
      if b = 10 then ([b], rest)
      else
        let r := readsLoop lim rest
        (b :: r.1, r.2)

/-- Function `reads` of server3.c lines 223-255 for a non-NULL buffer.
The input stream is the list of bytes the peer sends before closing.
Returns `(return value n, bytes written to the buffer, unread input)`.
For `size = 0` the function returns 0 without touching the buffer;
otherwise the buffer receives the data bytes followed by the NUL
sentinel written by `*p = 0`. -/
def reads (input : List Nat) (size : Nat) : Nat × List Nat × List Nat :=
  if size = 0 then (0, [], input)
  else
    let r := readsLoop (size - 1) input
    (r.1.length, r.1 ++ [0], r.2)

/-- Loop of `writen` (server3.c lines 276-282).  `mem i` is the byte at
`buf + i` (beyond the object pointed to when `i ≥` its size — `writen` has
no way to know the object's extent).  Each iteration consumes one `Write`
wrapper outcome; the source passes the original `count`, not the
remaining `n`, as the requested size, so the kernel may transfer up to
`min k count` bytes starting at the cursor `p`.  The remaining counter
`n` is a `size_t` and wraps on underflow.  Returns the bytes delivered to
the stream and the outcome of the call. -/
def writenLoop (mem : Nat → Nat) (count : Nat) :
    List WRes → Nat → Nat → List Nat × WOut
  | _, _, 0 => ([], WOut.ret count)
  | [], _, _ + 1 => ([], WOut.stuck)
  | WRes.fatal e :: _, _, _ + 1 => ([], WOut.exited e)
  | WRes.ok k :: rest, p, n + 1 =>
      let rc := min k count
      let r := writenLoop mem count rest (p + rc) (sub64 (n + 1) rc)
      (((List.range rc).map fun i => mem (p + i)) ++ r.1, r.2)

/-- Function `writen` of server3.c lines 261-285.  A `none` buffer is the
NULL pointer: the function sets `errno = EFAULT` and calls
`error("writen()")` before writing anything. -/
def writen (buf : Option (Nat → Nat)) (count : Nat) (sched : List WRes) :
    List Nat × WOut :=
  match buf with
  | none => ([], WOut.exited Errno.efault)
  | some mem => writenLoop mem count sched 0 count

/-- How a handler run ends. -/
inductive HOut
  | done
  | exited (e : Errno)
  | blocked
deriving DecidableEq

/-- Whether a handler outcome is a process exit. -/
def HOut.exitedQ : HOut → Bool
  | HOut.exited _ => true
  | _ => false

/-- Handler `serve_client` of server3.c lines 287-314: detach, take the
socket, build the random message and call `writen(socket, random_message, 64)`
— the allocation holds at most 11 bytes, so the 64-byte write also reads
the heap bytes after it; `heap.getD i 0` models the byte at
`random_message + i`.  If `writen` returns, the handler calls
`Close(socket)` once and returns NULL; if `writen` hits a fatal error it
calls `error(...)`, i.e. `exit(-1)`, and the `Close` is never executed.
Result: `(number of Close calls performed, how the run ended)`. -/
def serve_client (heap : List Nat) (wsched : List WRes) : Nat × HOut :=
  match (writen (some fun i => heap.getD i 0) 64 wsched).2 with
  | WOut.ret _ => (1, HOut.done)
  | WOut.exited e => (0, HOut.exited e)
  | WOut.stuck => (0, HOut.blocked)

/-- Accept/dispatch loop of `main` (server3.c lines 371-382), run against
a finite list of incoming connections, each given by the heap contents at
its handler's message and the write schedule its handler will see.  The
interleaving shown is the sequential one (each handler runs between two
accepts); since `error(...)` is `exit(-1)`, a handler that hits a fatal
error terminates the whole process and no later connection is accepted.
Returns `(number of connections accepted, whether the process is still
alive and accepting)`. -/
def server_run : List (List Nat × List WRes) → Nat × Bool
  | [] => (0, true)
  | c :: rest =>
      match (serve_client c.1 c.2).2 with
      | HOut.exited _ => (1, false)
      | _ => ((server_run rest).1 + 1, (server_run rest).2)

end Server

namespace Client

/-- Wrapper `Select` of client.c lines 92-105: retry `select` on `EINTR`,
`error("select()")` on any other failure. -/
def Select : List SysRes → Option (WRes × List SysRes) := retryWrap eintrOnly

/-- Loop of `writen` (client.c lines 150-156).  Unlike the server version
this one passes the remaining count `n` to `Write`, so each call
transfers `min k n` bytes starting at the cursor and never reaches past
the buffer.  The buffer is the list of the `count` bytes passed, with
`count = buf.length`. -/
def writenLoop (buf : List Nat) (count : Nat) :
    List WRes → Nat → Nat → List Nat × WOut
  | _, _, 0 => ([], WOut.ret count)
  | [], _, _ + 1 => ([], WOut.stuck)
  | WRes.fatal e :: _, _, _ + 1 => ([], WOut.exited e)
  | WRes.ok k :: rest, p, n + 1 =>
      let rc := min k (n + 1)
      let r := writenLoop buf count rest (p + rc) (n + 1 - rc)
      ((buf.drop p).take rc ++ r.1, r.2)

/-- Function `writen` of client.c lines 139-159.  A `none` buffer is the
NULL pointer: `errno = EFAULT`, then `error("writen()")` before any byte
is written. -/
def writen (buf : Option (List Nat)) (sched : List WRes) : List Nat × WOut :=
  match buf with
  | none => ([], WOut.exited Errno.efault)
  | some b => writenLoop b b.length sched 0 b.length

/-- The `MAXLINE` chunk size of client.c. -/
def MAXLINE : Nat := 256

/-- One iteration of the client loop, as seen through its syscalls: which
descriptors `select` reports ready, the chunk `Read(STDIN_FILENO, s, MAXLINE)`
returns when stdin is ready (`[]` is the zero-byte end-of-input read),
the `Write` wrapper outcomes the forwarding `writen(socket, s, rc)` call
consumes, the chunk `Read(socket, s, MAXLINE)` returns when the socket is
ready, and the outcome of the single `Write(STDOUT_FILENO, s, rc)` call. -/
structure Iter where
  stdinReady : Bool
  sockReady : Bool
  stdinChunk : List Nat
  wsched : List WRes
  sockChunk : List Nat
  outw : WRes
deriving DecidableEq

/-- How a `do_work` run ends. -/
inductive DOut
  | fin (toSock toOut : List Nat)
  | exited (e : Errno)
  | blocked
deriving DecidableEq

/-- Loop of `do_work` (client.c lines 176-197).  Every iteration performs
exactly one `Select` whose read set holds both stdin and the socket, then
services stdin first (a zero-byte read breaks out of the loop; otherwise
the chunk is forwarded with `writen`), then the socket (a zero-byte read
breaks; otherwise the chunk is forwarded to stdout with a single `Write`,
whose return value the source ignores).  `toSock` and `toOut` accumulate
the bytes delivered to the socket and to stdout; `DOut.blocked` covers
both a schedule that ends with the loop still running and a `writen` call
whose own schedule ran out. -/
def do_work : List Iter → List Nat → List Nat → DOut
  | [], _, _ => DOut.blocked
  | it :: rest, toSock, toOut =>
      if it.stdinReady then
        if it.stdinChunk = [] then DOut.fin toSock toOut
        else
          match writen (some it.stdinChunk) it.wsched with
          | (ds, WOut.ret _) =>
              if it.sockReady then
                if it.sockChunk = [] then DOut.fin (toSock ++ ds) toOut
                else
                  match it.outw with
                  | WRes.ok k =>
                      do_work rest (toSock ++ ds) (toOut ++ it.sockChunk.take k)
                  | WRes.fatal e => DOut.exited e
              else do_work rest (toSock ++ ds) toOut
          | (_, WOut.exited e) => DOut.exited e
          | (_, WOut.stuck) => DOut.blocked
      else
        if it.sockReady then
          if it.sockChunk = [] then DOut.fin toSock toOut
          else
            match it.outw with
            | WRes.ok k => do_work rest toSock (toOut ++ it.sockChunk.take k)
            | WRes.fatal e => DOut.exited e
        else do_work rest toSock toOut

/-- Modelled from the spec (claim C7 as amended): the same control flow
as `do_work`, with each stdin chunk appended to the socket stream in its
entirety (the full-write helper delivers exactly its buffer) and each
socket chunk forwarded to stdout only up to what the single raw write
reports written. -/
def forwardSpec : List Iter → List Nat → List Nat → DOut
  | [], _, _ => DOut.blocked
  | it :: rest, toSock, toOut =>
      if it.stdinReady then
        if it.stdinChunk = [] then DOut.fin toSock toOut
        else
          if it.sockReady then
            if it.sockChunk = [] then DOut.fin (toSock ++ it.stdinChunk) toOut
            else
              match it.outw with
              | WRes.ok k =>
                  forwardSpec rest (toSock ++ it.stdinChunk)
                    (toOut ++ it.sockChunk.take k)
              | WRes.fatal e => DOut.exited e
          else forwardSpec rest (toSock ++ it.stdinChunk) toOut
      else
        if it.sockReady then
          if it.sockChunk = [] then DOut.fin toSock toOut
          else
            match it.outw with
            | WRes.ok k => forwardSpec rest toSock (toOut ++ it.sockChunk.take k)
            | WRes.fatal e => DOut.exited e
        else forwardSpec rest toSock toOut

end Client

/-! Helper lemmas about the retry wrappers. -/

theorem retryWrap_ok (t : Errno → Bool) (pre : List Errno)
    (h : ∀ x ∈ pre, t x = true) (n : Nat) (rest : List SysRes) :
    retryWrap t (pre.map SysRes.err ++ SysRes.ok n :: rest) = some (WRes.ok n, rest) := by
  induction pre with
  | nil => rfl
  | cons e pre ih =>
      have he : t e = true := h e (by simp)
      have hp : ∀ x ∈ pre, t x = true := fun x hx => h x (by simp [hx])
      simp [retryWrap, he, ih hp]

theorem retryWrap_fatal (t : Errno → Bool) (pre : List Errno)
    (h : ∀ x ∈ pre, t x = true) (e : Errno) (he : t e = false) (rest : List SysRes) :
    retryWrap t (pre.map SysRes.err ++ SysRes.err e :: rest) = some (WRes.fatal e, rest) := by
  induction pre with
  | nil => simp [retryWrap, he]
  | cons x pre ih =>
      have hx : t x = true := h x (by simp)
      have hp : ∀ y ∈ pre, t y = true := fun y hy => h y (by simp [hy])
      simp [retryWrap, hx, ih hp]

theorem eintrOnly_false {e : Errno} (he : e ≠ Errno.eintr) : eintrOnly e = false := by
  cases e <;> first | rfl | exact absurd rfl he

theorem acceptRetry_false {e : Errno} (he1 : e ≠ Errno.eintr)
    (he2 : e ≠ Errno.econnaborted) : acceptRetry e = false := by
  cases e <;> first | rfl | exact absurd rfl he1 | exact absurd rfl he2

/-! Helper lemmas about the `reads` loop. -/

theorem readsLoop_no_newline (lim : Nat) (input : List Nat)
    (hlen : lim ≤ input.length) (hnl : ∀ b ∈ input.take lim, b ≠ 10) :
    Server.readsLoop lim input = (input.take lim, input.drop lim) := by
  induction lim generalizing input with
  | zero => simp [Server.readsLoop]
  | succ lim ih =>
      cases input with
      | nil => simp at hlen
      | cons b rest =>
          have hb : b ≠ 10 := hnl b (by simp)
          have hr : ∀ x ∈ rest.take lim, x ≠ 10 := fun x hx => hnl x (by simp [hx])
          have hl : lim ≤ rest.length := by
            simp only [List.length_cons] at hlen; omega
          simp [Server.readsLoop, hb, ih rest hl hr]

theorem readsLoop_newline (j lim : Nat) (input : List Nat)
    (hj : j < lim) (hget : input.get? j = some 10)
    (hpre : ∀ b ∈ input.take j, b ≠ 10) :
    Server.readsLoop lim input = (input.take (j + 1), input.drop (j + 1)) := by
  induction j generalizing lim input with
  | zero =>
      cases input with
      | nil => simp at hget
      | cons b rest =>
          have hb : b = 10 := by simpa using hget
          cases lim with
          | zero => omega
          | succ l => simp [Server.readsLoop, hb]
  | succ j ih =>
      cases input with
      | nil => simp at hget
      | cons b rest =>
          have hb : b ≠ 10 := hpre b (by simp)
          cases lim with
          | zero => omega
          | succ l =>
              have hgr : rest.get? j = some 10 := by simpa using hget
              have hpr : ∀ x ∈ rest.take j, x ≠ 10 := fun x hx => hpre x (by simp [hx])
              simp [Server.readsLoop, hb, ih l rest (by omega) hgr hpr]

theorem readsLoop_eof (input : List Nat) (lim : Nat)
    (hlen : input.length < lim) (hnl : ∀ b ∈ input, b ≠ 10) :
    Server.readsLoop lim input = (input, []) := by
  induction input generalizing lim with
  | nil =>
      cases lim with
      | zero => omega
      | succ l => simp [Server.readsLoop]
  | cons b rest ih =>
      cases lim with
      | zero => omega
      | succ l =>
          have hb : b ≠ 10 := hnl b (by simp)
          have hl : rest.length < l := by
            simp only [List.length_cons] at hlen; omega
          simp [Server.readsLoop, hb, ih l hl (fun x hx => hnl x (by simp [hx]))]

/-! Helper lemmas about the client `writen` loop. -/

theorem client_writenLoop_ok (buf : List Nat) (count : Nat) (sched : List WRes) :
    ∀ p n : Nat, (∀ w ∈ sched, okPos w = true) → n ≤ sched.length →
      Client.writenLoop buf count sched p n = ((buf.drop p).take n, WOut.ret count) := by
  induction sched with
  | nil =>
      intro p n _ hlen
      have hn : n = 0 := by simpa using hlen
      subst hn
      simp [Client.writenLoop]
  | cons w rest ih =>
      intro p n hok hlen
      cases n with
      | zero => simp [Client.writenLoop]
      | succ m =>
          obtain ⟨k, hk⟩ : ∃ k, w = WRes.ok (k + 1) := by
            have hw := hok w (by simp)
            cases w with
            | ok k =>
                cases k with
                | zero => simp [okPos] at hw
                | succ k => exact ⟨k, rfl⟩
            | fatal e => simp [okPos] at hw
          subst hk
          have hok2 : ∀ x ∈ rest, okPos x = true := fun x hx => hok x (by simp [hx])
          have hminle : min (k + 1) (m + 1) ≤ m + 1 := min_le_right _ _
          have hminpos : 1 ≤ min (k + 1) (m + 1) := le_min (by omega) (by omega)
          have hlen2 : m + 1 - min (k + 1) (m + 1) ≤ rest.length := by
            simp only [List.length_cons] at hlen; omega
          have hr := ih (p + min (k + 1) (m + 1)) (m + 1 - min (k + 1) (m + 1)) hok2 hlen2
          simp only [Client.writenLoop, hr]
          have hdd : buf.drop (p + min (k + 1) (m + 1)) =
              (buf.drop p).drop (min (k + 1) (m + 1)) := by
            rw [List.drop_drop]
          rw [hdd, ← List.take_add, Nat.add_sub_cancel' hminle]

theorem client_writen_ok (b : List Nat) (sched : List WRes)
    (hok : ∀ w ∈ sched, okPos w = true) (hlen : b.length ≤ sched.length) :
    Client.writen (some b) sched = (b, WOut.ret b.length) := by
  simp [Client.writen, client_writenLoop_ok b b.length sched 0 b.length hok hlen]

/-- Claim C3: for every capacity `size ≥ 1` and every input stream whose
first `size - 1` bytes exist and contain no newline, `reads` returns
exactly `size - 1`, stores exactly `size - 1` data bytes followed by the
NUL sentinel (so the buffer holds `size` bytes in indices `0 .. size - 1`
and nothing is written past index `size - 1`), and leaves all further
stream bytes unread; for capacity 0 it is a no-op returning 0. -/
theorem reads_no_newline_bounded (input : List Nat) (size : Nat)
    (h1 : 1 ≤ size) (h2 : size - 1 ≤ input.length)
    (h3 : ∀ b ∈ input.take (size - 1), b ≠ 10) :
    Server.reads input size
      = (size - 1, input.take (size - 1) ++ [0], input.drop (size - 1)) ∧
    (Server.reads input size).2.1.length = size ∧
    Server.reads input 0 = (0, [], input) := by
  have hsz : ¬size = 0 := by omega
  have hloop := readsLoop_no_newline (size - 1) input h2 h3
  have hmain : Server.reads input size
      = (size - 1, input.take (size - 1) ++ [0], input.drop (size - 1)) := by
    simp only [Server.reads, hsz, if_false, hloop]
    simp [List.length_take, Nat.min_eq_left h2]
  refine ⟨hmain, ?_, by simp [Server.reads]⟩
  rw [hmain]
  simp [List.length_take, Nat.min_eq_left h2]
  omega

/-- Witness for claim C3: a 4-byte stream with no newline, capacity 4. -/
theorem reads_no_newline_bounded_w :
    Server.reads [65, 66, 67, 68] 4 = (3, [65, 66, 67, 0], [68]) ∧
    (Server.reads [65, 66, 67, 68] 4).2.1.length = 4 ∧
    Server.reads [65, 66, 67, 68] 0 = (0, [], [65, 66, 67, 68]) :=
  reads_no_newline_bounded [65, 66, 67, 68] 4 (by decide) (by decide) (by decide)

/-- Claim C4: if the first newline of the stream sits at index `j` within
the first `size - 1` bytes, `reads` stops there, keeps the newline as the
last data byte (the data is the bytes up to `j` followed by the newline),
returns `j + 1` data bytes, NUL-terminates right after the newline, and
leaves the rest of the stream unread. -/
theorem reads_stops_at_newline (input : List Nat) (size j : Nat)
    (hj : j < size - 1) (hget : input.get? j = some 10)
    (hpre : ∀ b ∈ input.take j, b ≠ 10) :
    Server.reads input size
      = (j + 1, input.take (j + 1) ++ [0], input.drop (j + 1)) ∧
    input.take (j + 1) = input.take j ++ [10] := by
  have hsz : ¬size = 0 := by omega
  have hjl : j < input.length := by
    by_contra hc
    rw [List.get?_eq_none.mpr (by omega)] at hget
    exact Option.noConfusion hget
  have hloop := readsLoop_newline j (size - 1) input hj hget hpre
  constructor
  · simp only [Server.reads, hsz, if_false, hloop]
    simp [List.length_take, Nat.min_eq_left (by omega : j + 1 ≤ input.length)]
  · rw [List.take_succ, ← List.get?_eq_getElem?, hget]
    rfl

/-- Witness for claim C4: newline at index 1 of the stream, capacity 8. -/
theorem reads_stops_at_newline_w :
    Server.reads [65, 10, 66] 8 = (2, [65, 10, 0], [66]) ∧
    ([65, 10, 66] : List Nat).take 2 = ([65, 10, 66] : List Nat).take 1 ++ [10] :=
  reads_stops_at_newline [65, 10, 66] 8 1 (by decide) (by decide) (by decide)

/-- Claim C5: if the peer closes the stream before a newline appears and
before `size - 1` bytes accumulate, `reads` returns the bytes received so
far (possibly zero), does not append any line terminator (the buffer data
is the input verbatim), and NUL-terminates right after those bytes. -/
theorem reads_eof_returns_partial (input : List Nat) (size : Nat)
    (h1 : 1 ≤ size) (h2 : input.length < size - 1) (h3 : ∀ b ∈ input, b ≠ 10) :
    Server.reads input size = (input.length, input ++ [0], []) := by
  have hsz : ¬size = 0 := by omega
  simp [Server.reads, hsz, readsLoop_eof input (size - 1) h2 h3]

/-- Witness for claim C5: the peer closes after one byte, capacity 4. -/
theorem reads_eof_returns_partial_w :
    Server.reads [66] 4 = (1, [66, 0], []) :=
  reads_eof_returns_partial [66] 4 (by decide) (by decide) (by decide)

/-- Claim C6: each reliable wrapper retries the identical operation while
the syscall fails with `EINTR` (and, for `Accept` only, `ECONNABORTED`),
with no observable effect on the caller — the wrapper returns exactly the
count of the first non-transient success, a plain non-negative number
(`WRes.ok`), never an error code; on any other `errno` the wrapper calls
`error(...)` (`WRes.fatal`), so it does not hand a return value to the
calling context. -/
theorem wrappers_retry_transient (pre pre2 : List Errno) (n : Nat)
    (rest : List SysRes) (e e2 : Errno)
    (hpre : ∀ x ∈ pre, x = Errno.eintr)
    (hpre2 : ∀ x ∈ pre2, x = Errno.eintr ∨ x = Errno.econnaborted)
    (he : e ≠ Errno.eintr)
    (he2a : e2 ≠ Errno.eintr) (he2b : e2 ≠ Errno.econnaborted) :
    Server.Read (pre.map SysRes.err ++ SysRes.ok n :: rest) = some (WRes.ok n, rest) ∧
    Server.Write (pre.map SysRes.err ++ SysRes.ok n :: rest) = some (WRes.ok n, rest) ∧
    Server.Close (pre.map SysRes.err ++ SysRes.ok n :: rest) = some (WRes.ok n, rest) ∧
    Client.Select (pre.map SysRes.err ++ SysRes.ok n :: rest) = some (WRes.ok n, rest) ∧
    Server.Accept (pre2.map SysRes.err ++ SysRes.ok n :: rest) = some (WRes.ok n, rest) ∧
    Server.Read (pre.map SysRes.err ++ SysRes.err e :: rest) = some (WRes.fatal e, rest) ∧
    Server.Accept (pre2.map SysRes.err ++ SysRes.err e2 :: rest)
      = some (WRes.fatal e2, rest) := by
  have h1 : ∀ x ∈ pre, eintrOnly x = true := fun x hx => by rw [hpre x hx]; rfl
  have h2 : ∀ x ∈ pre2, acceptRetry x = true := fun x hx => by
    rcases hpre2 x hx with h | h <;> rw [h] <;> rfl
  exact ⟨retryWrap_ok _ pre h1 n rest, retryWrap_ok _ pre h1 n rest,
    retryWrap_ok _ pre h1 n rest, retryWrap_ok _ pre h1 n rest,
    retryWrap_ok _ pre2 h2 n rest,
    retryWrap_fatal _ pre h1 e (eintrOnly_false he) rest,
    retryWrap_fatal _ pre2 h2 e2 (acceptRetry_false he2a he2b) rest⟩

/-- Witness for claim C6: one `EINTR` before a 5-byte success for the
`EINTR`-only wrappers; an `EINTR` then an `ECONNABORTED` before success
for `Accept`; `EIO` and `EFAULT` as the fatal errors. -/
theorem wrappers_retry_transient_w :
    Server.Read [SysRes.err Errno.eintr, SysRes.ok 5] = some (WRes.ok 5, []) ∧
    Server.Write [SysRes.err Errno.eintr, SysRes.ok 5] = some (WRes.ok 5, []) ∧
    Server.Close [SysRes.err Errno.eintr, SysRes.ok 5] = some (WRes.ok 5, []) ∧
    Client.Select [SysRes.err Errno.eintr, SysRes.ok 5] = some (WRes.ok 5, []) ∧
    Server.Accept [SysRes.err Errno.eintr, SysRes.err Errno.econnaborted, SysRes.ok 5]
      = some (WRes.ok 5, []) ∧
    Server.Read [SysRes.err Errno.eintr, SysRes.err Errno.eio]
      = some (WRes.fatal Errno.eio, []) ∧
    Server.Accept [SysRes.err Errno.eintr, SysRes.err Errno.econnaborted,
        SysRes.err Errno.efault]
      = some (WRes.fatal Errno.efault, []) :=
  wrappers_retry_transient [Errno.eintr] [Errno.eintr, Errno.econnaborted] 5 []
    Errno.eio Errno.efault (by decide) (by decide) (by decide) (by decide) (by decide)

/-- Claim C9: calling `writen` (either version) with a NULL buffer is a
fatal `EFAULT` usage error raised before any byte is written (the
delivered stream is empty), and the call does not return to the caller
(`error(...)` exits instead of producing a `WOut.ret`). -/
theorem writen_null_buffer_fatal (count : Nat) (s1 s2 : List WRes) :
    Server.writen none count s1 = ([], WOut.exited Errno.efault) ∧
    Client.writen none s2 = ([], WOut.exited Errno.efault) :=
  ⟨rfl, rfl⟩

/-! Claims about the server `writen`, `serve_client` and the dispatch loop. -/

/-- A 2-byte buffer `[7, 8]`; the byte after it in memory is 99. -/
def memB : Nat → Nat := fun i => if i = 0 then 7 else if i = 1 then 8 else 99

/-- Claim C1, evaluation at the failing input (server3.c `writen`): with
buffer `B = [7, 8]`, `count = 2`, and partial underlying writes that
deliver 1 byte and then 2 bytes, the loop passes the original `count` to
`Write` instead of the remaining `n`, so the second call requests 2 bytes
at cursor 1 and delivers `B[1]` plus the byte after the buffer: the
stream receives `[7, 8, 99]` — a byte that is not part of `B` — the
remaining `size_t` counter wraps past zero, and the call never returns
`N` (the loop is still running when the schedule ends). -/
theorem server_writen_overrequest_eval :
    Server.writen (some memB) 2 [WRes.ok 1, WRes.ok 2] = ([7, 8, 99], WOut.stuck) ∧
    ([7, 8, 99] : List Nat) ≠ [7, 8] ∧ WOut.stuck ≠ WOut.ret 2 := by
  decide

/-- Helper for claim C2: a run in which no handler hits a fatal error
leaves the process alive and accepting. -/
theorem server_run_alive (conns : List (List Nat × List WRes))
    (hok : ∀ c ∈ conns, Server.HOut.exitedQ (Server.serve_client c.1 c.2).2 = false) :
    (Server.server_run conns).2 = true := by
  induction conns with
  | nil => rfl
  | cons c cs ih =>
      have hc := hok c (by simp)
      have hcs : ∀ x ∈ cs, Server.HOut.exitedQ (Server.serve_client x.1 x.2).2 = false :=
        fun x hx => hok x (by simp [hx])
      cases hout : (Server.serve_client c.1 c.2).2 with
      | exited e => rw [hout] at hc; simp [Server.HOut.exitedQ] at hc
      | done => simp [Server.server_run, hout, ih hcs]
      | blocked => simp [Server.server_run, hout, ih hcs]

/-- Counterexample to claim C2 as stated: two incoming connections; the
first handler hits a fatal I/O error on its write.  Because `error(...)`
is `exit(-1)`, the whole process — listener included — terminates: only
1 connection is ever accepted and the listener is not accepting
afterwards, contradicting "the listener continues accepting connections
after any number of handler failures". -/
theorem handler_failure_kills_listener_cex :
    Server.server_run [([97], [WRes.fatal Errno.eio]), ([97], [WRes.ok 64])]
      = (1, false) ∧
    (Server.server_run [([97], [WRes.fatal Errno.eio]), ([97], [WRes.ok 64])]).2
      ≠ true := by
  decide

/-- Claim C2 as amended: a fatal I/O error inside a connection handler
calls `error(...)`, which exits the whole process, so the listener stops
and no later connection is accepted; only when no handler fails fatally
does the listener stay alive and keep accepting. -/
theorem handler_failure_exits_process (heap : List Nat) (ws : List WRes) (e : Errno)
    (rest conns : List (List Nat × List WRes))
    (h : (Server.serve_client heap ws).2 = Server.HOut.exited e)
    (hok : ∀ c ∈ conns, Server.HOut.exitedQ (Server.serve_client c.1 c.2).2 = false) :
    Server.server_run ((heap, ws) :: rest) = (1, false) ∧
    (Server.server_run conns).2 = true := by
  refine ⟨?_, server_run_alive conns hok⟩
  simp [Server.server_run, h]

/-- Witness for claim C2 (amended): the failing handler stops the whole
run even with another connection pending, while a run whose single
handler succeeds leaves the listener accepting. -/
theorem handler_failure_exits_process_w :
    Server.server_run [([97], [WRes.fatal Errno.eio]), ([96], [WRes.ok 64])]
      = (1, false) ∧
    (Server.server_run [([96], [WRes.ok 64])]).2 = true :=
  handler_failure_exits_process [97] [WRes.fatal Errno.eio] Errno.eio
    [([96], [WRes.ok 64])] [([96], [WRes.ok 64])] (by decide) (by decide)

/-- Counterexample to claim C8 as stated: when the handler's write fails
fatally, `error(...)` exits the process before `Close(socket)` is
reached, so on that exit path the owning handler performs zero closes —
not "exactly once on every exit path". -/
theorem serve_client_no_close_on_fatal_cex :
    Server.serve_client [97] [WRes.fatal Errno.eio]
      = (0, Server.HOut.exited Errno.eio) ∧
    (Server.serve_client [97] [WRes.fatal Errno.eio]).1 ≠ 1 := by
  decide

/-- Claim C8 as amended: on normal completion (here: the first write
delivers all 64 requested bytes) the handler closes its connected stream
exactly once; on a fatal write error the handler performs no close at
all — `error(...)` exits the whole process instead, and the stream is
reclaimed only by process teardown. -/
theorem serve_client_close_paths (heap : List Nat) (k : Nat) (hk : 64 ≤ k)
    (rest rest2 : List WRes) (e : Errno) :
    Server.serve_client heap (WRes.ok k :: rest) = (1, Server.HOut.done) ∧
    Server.serve_client heap (WRes.fatal e :: rest2)
      = (0, Server.HOut.exited e) := by
  constructor
  · have hmin : min k 64 = 64 := min_eq_right hk
    have hsub : sub64 64 64 = 0 := by decide
    simp [Server.serve_client, Server.writen, Server.writenLoop, hmin, hsub]
  · simp [Server.serve_client, Server.writen, Server.writenLoop]

/-- Witness for claim C8 (amended): a full 64-byte write leads to exactly
one close; a fatal first write leads to zero closes and process exit. -/
theorem serve_client_close_paths_w :
    Server.serve_client [97] [WRes.ok 64] = (1, Server.HOut.done) ∧
    Server.serve_client [97] [WRes.fatal Errno.eio]
      = (0, Server.HOut.exited Errno.eio) :=
  serve_client_close_paths [97] 64 (by decide) [] [] Errno.eio

/-! Claims about the client multiplexing loop `do_work`. -/

/-- Counterexample to claim C7 as stated: the connection becomes ready
with a 2-byte chunk `[65, 66]`; the single `Write(STDOUT_FILENO, s, rc)`
the loop uses for that direction reports only 1 byte written and the
source ignores its return value, so only `[65]` reaches local output —
the drained chunk is not forwarded in its entirety. -/
theorem do_work_partial_stdout_cex :
    Client.do_work
        [⟨false, true, [], [], [65, 66], WRes.ok 1⟩,
         ⟨true, false, [], [], [], WRes.ok 0⟩] [] []
      = Client.DOut.fin [] [65] ∧ ([65] : List Nat) ≠ [65, 66] := by
  decide

/-- Claim C7 as amended: as long as the socket writes behind the
full-write helper each transfer at least one byte and are numerous enough
(and chunks respect the `MAXLINE` bound of the two `Read` calls), the
loop behaves exactly like the forwarding model `forwardSpec`: every
iteration performs one readiness wait covering both sources, a chunk
drained from local input is forwarded to the connection in its entirety,
a chunk drained from the connection is forwarded to local output only up
to what the single raw write reports written, and a zero-byte read on a
serviced source terminates the loop. -/
theorem do_work_refines_forwardSpec (its : List Client.Iter) (toSock toOut : List Nat)
    (h : ∀ it ∈ its, (∀ w ∈ it.wsched, okPos w = true) ∧
        it.stdinChunk.length ≤ it.wsched.length ∧
        it.stdinChunk.length ≤ Client.MAXLINE ∧ it.sockChunk.length ≤ Client.MAXLINE) :
    Client.do_work its toSock toOut = Client.forwardSpec its toSock toOut := by
  induction its generalizing toSock toOut with
  | nil => rfl
  | cons it rest ih =>
      have hit := h it (by simp)
      have hrest : ∀ x ∈ rest, (∀ w ∈ x.wsched, okPos w = true) ∧
          x.stdinChunk.length ≤ x.wsched.length ∧
          x.stdinChunk.length ≤ Client.MAXLINE ∧ x.sockChunk.length ≤ Client.MAXLINE :=
        fun x hx => h x (by simp [hx])
      have ih2 := fun a b => ih a b hrest
      cases hsr : it.stdinReady with
      | false =>
          cases hkr : it.sockReady with
          | false => simp [Client.do_work, Client.forwardSpec, hsr, hkr, ih2]
          | true =>
              by_cases hsc : it.sockChunk = []
              · simp [Client.do_work, Client.forwardSpec, hsr, hkr, hsc]
              · cases how : it.outw with
                | ok k =>
                    simp [Client.do_work, Client.forwardSpec, hsr, hkr, hsc, how, ih2]
                | fatal e =>
                    simp [Client.do_work, Client.forwardSpec, hsr, hkr, hsc, how]
      | true =>
          by_cases hc : it.stdinChunk = []
          · simp [Client.do_work, Client.forwardSpec, hsr, hc]
          · have hw := client_writen_ok it.stdinChunk it.wsched hit.1 hit.2.1
            cases hkr : it.sockReady with
            | false => simp [Client.do_work, Client.forwardSpec, hsr, hc, hkr, hw, ih2]
            | true =>
                by_cases hsc : it.sockChunk = []
                · simp [Client.do_work, Client.forwardSpec, hsr, hc, hkr, hsc, hw]
                · cases how : it.outw with
                  | ok k =>
                      simp [Client.do_work, Client.forwardSpec, hsr, hc, hkr, hsc, how,
                        hw, ih2]
                  | fatal e =>
                      simp [Client.do_work, Client.forwardSpec, hsr, hc, hkr, hsc, how, hw]

/-- Witness for claim C7 (amended): one iteration with both sources ready
(a 2-byte stdin chunk forwarded whole across two partial socket writes, a
2-byte connection chunk of which the stdout write delivers 1 byte),
then end of local input. -/
theorem do_work_refines_forwardSpec_w :
    Client.do_work
        [⟨true, true, [72, 73], [WRes.ok 1, WRes.ok 9], [77, 78], WRes.ok 1⟩,
         ⟨true, false, [], [], [], WRes.ok 0⟩] [] []
      = Client.forwardSpec
          [⟨true, true, [72, 73], [WRes.ok 1, WRes.ok 9], [77, 78], WRes.ok 1⟩,
           ⟨true, false, [], [], [], WRes.ok 0⟩] [] [] :=
  do_work_refines_forwardSpec
    [⟨true, true, [72, 73], [WRes.ok 1, WRes.ok 9], [77, 78], WRes.ok 1⟩,
     ⟨true, false, [], [], [], WRes.ok 0⟩] [] [] (by decide)

/-- Claim C10: stdin is serviced before the connection, so when the read
of local input returns zero bytes the loop terminates at once: nothing
is added to either accumulator and the data pending on the connection in
that same iteration (`sockReady`, non-empty `sockChunk`) is neither read
nor forwarded. -/
theorem do_work_stdin_eof_stops (it : Client.Iter) (rest : List Client.Iter)
    (toSock toOut : List Nat)
    (h1 : it.stdinReady = true) (h2 : it.stdinChunk = []) :
    Client.do_work (it :: rest) toSock toOut = Client.DOut.fin toSock toOut := by
  simp [Client.do_work, h1, h2]

/-- Witness for claim C10: end of local input while the connection is
ready with 2 pending bytes; the loop stops with nothing forwarded. -/
theorem do_work_stdin_eof_stops_w :
    Client.do_work [⟨true, true, [], [], [1, 2], WRes.ok 2⟩] [] []
      = Client.DOut.fin [] [] :=
  do_work_stdin_eof_stops ⟨true, true, [], [], [1, 2], WRes.ok 2⟩ [] [] [] rfl rfl
